import Mathlib

/-!
# Verification of the ordpool-parser inscription extraction pipeline

Shallow embedding of `InscriptionParserService` (both the variant in
`src/inscription-parser.service.ts` and the richer variant that additionally
handles `content_encoding`/metadata), together with models of the helper
module (`inscription-parser.service.helper`: pushdata reader, envelope
scanner, hex and base64 conversion) whose source is not part of the
repository snapshot and is therefore modelled from the specification.

Conventions of the embedding:
* byte buffers (`Uint8Array`) are `List Nat` of byte values;
* strings are `List Nat` of character codes (so the single-byte-char
  conversion `String.fromCharCode`-style is the identity);
* code that can throw is embedded in `Except ParseErr`; the `try/catch`
  inside `extractInscriptionData` is the explicit match that maps any
  error to `none`;
* the Brotli decompressor and the CBOR decoder are external collaborators
  and appear as function parameters (`none` models a decode failure, which
  in the source is a thrown exception).
* the unbounded `while` loops of the source are embedded with an explicit
  iteration budget (`fuel`); the canonical instances use `raw.length + 1`,
  which is proved sufficient (the loop cursor strictly increases and is
  bounded by the buffer length).
-/

/-- Modelled from the spec: script opcode `OP_0` (0x00), the empty-push opcode
of the Pushdata Reader (4.1) and the body-separator marker (4.3). -/
def OP_0 : Nat := 0

/-- Modelled from the spec: script opcode `OP_ENDIF` (0x68), the
end-of-envelope marker (4.4). -/
def OP_ENDIF : Nat := 0x68

/-- Modelled from the spec: recognized field tag `content_type` (tag table, 3). -/
def knownFields_content_type : Nat := 1

/-- Modelled from the spec: recognized field tag `pointer` (tag table, 3). -/
def knownFields_pointer : Nat := 2

/-- Modelled from the spec: recognized field tag `parent` (tag table, 3). -/
def knownFields_parent : Nat := 3

/-- Modelled from the spec: recognized field tag `metadata` (tag table, 3). -/
def knownFields_metadata : Nat := 5

/-- Modelled from the spec: recognized field tag `metaprotocol` (tag table, 3). -/
def knownFields_metaprotocol : Nat := 7

/-- Modelled from the spec: recognized field tag `content_encoding` (tag table, 3). -/
def knownFields_content_encoding : Nat := 9

/-- Character codes of a Lean string literal, used to embed the string
literals of the source (`"br"`, `"data:"`, `";base64,"`). -/
def strBytes (s : String) : List Nat := s.toList.map Char.toNat

/-- Modelled from the spec: value of one hex digit character (Byte/Hex
Utilities, assumed correct, 2). Non-hex characters map to 0; the spec only
constrains well-formed hex input. -/
def hexDigitValue (c : Nat) : Nat :=
  if 48 ≤ c ∧ c ≤ 57 then c - 48
  else if 97 ≤ c ∧ c ≤ 102 then c - 87
  else if 65 ≤ c ∧ c ≤ 70 then c - 55
  else 0

/-- Modelled from the spec: hex string to byte buffer conversion
(`hexStringToUint8Array`, Byte/Hex Utilities, 2 and 6: strings of even
length, each byte as two hex characters). Total: a trailing lone character
is taken as a single digit, mirroring a two-at-a-time chunking. -/
def hexStringToUint8Array : List Nat → List Nat
  | c1 :: c2 :: rest => (16 * hexDigitValue c1 + hexDigitValue c2) :: hexStringToUint8Array rest
  | [c1] => [hexDigitValue c1]
  | [] => []

/-- Modelled from the spec: `uint8ArrayToSingleByteChars`, the direct
byte-to-character decoding used for MIME tokens (4.5 step 2). Under the
strings-as-code-lists convention this is the identity. -/
def uint8ArrayToSingleByteChars (bytes : List Nat) : List Nat := bytes

/-- The base64 alphabet, as character codes. -/
def base64Table : List Nat :=
  strBytes "ABCDEFGHIJKLMNOPQRSTUVWXYZabcdefghijklmnopqrstuvwxyz0123456789+/"

/-- One base64 alphabet character. -/
def base64Char (k : Nat) : Nat := base64Table.getD k 65

/-- Modelled from the spec: base64 encoding of a byte sequence
(`encodeToBase64`, Byte/Hex Utilities, 2; data-URI contract, 6), with `=`
(code 61) padding. -/
def encodeToBase64 : List Nat → List Nat
  | b1 :: b2 :: b3 :: rest =>
    base64Char ((b1 * 65536 + b2 * 256 + b3) / 262144) ::
    base64Char ((b1 * 65536 + b2 * 256 + b3) / 4096 % 64) ::
    base64Char ((b1 * 65536 + b2 * 256 + b3) / 64 % 64) ::
    base64Char ((b1 * 65536 + b2 * 256 + b3) % 64) :: encodeToBase64 rest
  | [b1, b2] =>
    [base64Char ((b1 * 65536 + b2 * 256) / 262144),
     base64Char ((b1 * 65536 + b2 * 256) / 4096 % 64),
     base64Char ((b1 * 65536 + b2 * 256) / 64 % 64), 61]
  | [b1] =>
    [base64Char ((b1 * 65536) / 262144), base64Char ((b1 * 65536) / 4096 % 64), 61, 61]
  | [] => []

/-- Modelled from the spec: little-endian unsigned integer value of a byte
sequence (used for the PUSHDATA1/2/4 length prefixes, 4.1). -/
def leNum : List Nat → Nat
  | [] => 0
  | b :: rest => b + 256 * leNum rest

/-- The failure conditions of the envelope pipeline, which in the source are
thrown exceptions (7). `fuelExhausted` is an artifact of the explicit
iteration budget and never occurs at the canonical budget. -/
inductive ParseErr where
  | truncated : Nat → ParseErr
  | invalidOpcode : Nat → ParseErr
  | fuelExhausted : ParseErr
  | decompressionFailed : ParseErr
deriving DecidableEq

/-- Decidable equality of `Except` results, used by the concrete witnesses. -/
instance {ε α : Type} [DecidableEq ε] [DecidableEq α] : DecidableEq (Except ε α) := fun a b =>
  match a, b with
  | Except.error e, Except.error f => decidable_of_iff (e = f) (by simp)
  | Except.error _, Except.ok _ => isFalse (by simp)
  | Except.ok _, Except.error _ => isFalse (by simp)
  | Except.ok x, Except.ok y => decidable_of_iff (x = y) (by simp)

/-- Modelled from the spec: read `len` bytes of payload starting at `start`,
failing with `TruncatedInput` when the declared length exceeds the remaining
buffer (4.1). Returns the slice and the new cursor. -/
def readSliceE (raw : List Nat) (start len pos : Nat) : Except ParseErr (List Nat × Nat) :=
  if start + len ≤ raw.length then Except.ok ((raw.drop start).take len, start + len)
  else Except.error (ParseErr.truncated pos)

/-- Modelled from the spec: the PUSHDATA1/2/4 classes of the Pushdata Reader
(4.1): read a `lenBytes`-byte little-endian length prefix, then that many
payload bytes. -/
def readLengthThenSlice (raw : List Nat) (pointer lenBytes : Nat) : Except ParseErr (List Nat × Nat) :=
  match readSliceE raw (pointer + 1) lenBytes pointer with
  | Except.error e => Except.error e
  | Except.ok (lb, p) => readSliceE raw p (leNum lb) pointer

/-- Modelled from the spec: the Pushdata Reader (4.1). Decodes one push
operation at the cursor: opcode 0 yields an empty slice, 1-75 is a direct
length prefix, 76/77/78 carry a 1/2/4-byte little-endian length. It fails
with `TruncatedInput` when the cursor starts beyond the buffer end or a
declared length exceeds the remaining buffer, and with `invalidOpcode` on
any other opcode (such bytes are not push operations, so a false-positive
envelope candidate fails safely, 4.2). -/
def readPushdataE (raw : List Nat) (pointer : Nat) : Except ParseErr (List Nat × Nat) :=
  if h : pointer < raw.length then
    if raw[pointer] = 0 then Except.ok ([], pointer + 1)
    else if raw[pointer] ≤ 75 then readSliceE raw (pointer + 1) raw[pointer] pointer
    else if raw[pointer] = 76 then readLengthThenSlice raw pointer 1
    else if raw[pointer] = 77 then readLengthThenSlice raw pointer 2
    else if raw[pointer] = 78 then readLengthThenSlice raw pointer 4
    else Except.error (ParseErr.invalidOpcode pointer)
  else Except.error (ParseErr.truncated pointer)

/-- A tag/value pair extracted from an envelope. -/
structure InsField where
  tag : List Nat
  value : List Nat
deriving DecidableEq

/-- The field loop of `extractInscriptionData`: starting at `pointer`,
repeatedly read a tag pushdata and a value pushdata, stopping when the
current byte is `OP_0` or the buffer is exhausted. Fuel-indexed embedding of
the `while` loop; each iteration strictly advances the cursor. -/
def readFieldsF : Nat → List Nat → Nat → Except ParseErr (List InsField × Nat)
  | 0, _, _ => Except.error ParseErr.fuelExhausted
  | fuel + 1, raw, pointer =>
    if h : pointer < raw.length then
      if raw[pointer] = OP_0 then Except.ok ([], pointer)
      else
        match readPushdataE raw pointer with
        | Except.error e => Except.error e
        | Except.ok (tag, p1) =>
          match readPushdataE raw p1 with
          | Except.error e => Except.error e
          | Except.ok (value, p2) =>
            match readFieldsF fuel raw p2 with
            | Except.error e => Except.error e
            | Except.ok (rest, pEnd) => Except.ok (⟨tag, value⟩ :: rest, pEnd)
    else Except.ok ([], pointer)

/-- The field loop at its canonical iteration budget. -/
def readFields (raw : List Nat) (pointer : Nat) : Except ParseErr (List InsField × Nat) :=
  readFieldsF (raw.length + 1) raw pointer

/-- The body loop of `extractInscriptionData`: collect pushdata chunks until
`OP_ENDIF` or the end of the buffer. Fuel-indexed embedding of the `while`
loop. -/
def readBodyF : Nat → List Nat → Nat → Except ParseErr (List (List Nat) × Nat)
  | 0, _, _ => Except.error ParseErr.fuelExhausted
  | fuel + 1, raw, pointer =>
    if h : pointer < raw.length then
      if raw[pointer] = OP_ENDIF then Except.ok ([], pointer)
      else
        match readPushdataE raw pointer with
        | Except.error e => Except.error e
        | Except.ok (chunk, p1) =>
          match readBodyF fuel raw p1 with
          | Except.error e => Except.error e
          | Except.ok (rest, pEnd) => Except.ok (chunk :: rest, pEnd)
    else Except.ok ([], pointer)

/-- The body loop at its canonical iteration budget. -/
def readBody (raw : List Nat) (pointer : Nat) : Except ParseErr (List (List Nat) × Nat) :=
  readBodyF (raw.length + 1) raw pointer

/-- The `OP_0` body-separator skip between the field loop and the body loop:
`if (pointer < raw.length && raw[pointer] === OP_0) pointer++`. -/
def skipSeparator (raw : List Nat) (pointer : Nat) : Nat :=
  if h : pointer < raw.length then
    if raw[pointer] = OP_0 then pointer + 1 else pointer
  else pointer

/-- One `combinedData.set(segment, idx)` step: overwrite `segment.length`
bytes of `buffer` starting at `idx`. -/
def writeAt (buffer : List Nat) (idx : Nat) (segment : List Nat) : List Nat :=
  buffer.take idx ++ segment ++ buffer.drop (idx + segment.length)

/-- The copy loop of `extractInscriptionData`: place each segment into the
buffer at the running offset. -/
def copySegments : List (List Nat) → List Nat → Nat → List Nat
  | [], buffer, _ => buffer
  | segment :: rest, buffer, idx => copySegments rest (writeAt buffer idx segment) (idx + segment.length)

/-- Assembling `combinedData`: allocate a zero buffer of the summed chunk
length and copy every chunk at its offset. -/
def combineChunks (chunks : List (List Nat)) : List Nat :=
  copySegments chunks (List.replicate ((chunks.map List.length).sum) 0) 0

/-- The content-type/known-field predicate of the source:
`x.tag.length === 1 && x.tag[0] === field`. -/
def hasSingleByteTag (t : Nat) (f : InsField) : Bool :=
  f.tag.length == 1 && f.tag.headD 0 == t

/-- Modelled from the spec: `getKnownFieldValue(fields, field)` of the helper
module - the value of the first field whose tag is the single byte `field`
(tag table and field lookup, 3 and 4.5). -/
def getKnownFieldValue (flds : List InsField) (t : Nat) : Option (List Nat) :=
  (flds.find? (hasSingleByteTag t)).map InsField.value

/-- The inscription record of the `src/inscription-parser.service.ts`
variant: the data captured by the returned object (its accessors close over
`contentType` and `combinedData`). -/
structure ParsedInscription1 where
  contentType : List Nat
  fields : List InsField
  body : List Nat
deriving DecidableEq

/-- The inscription record of the `content_encoding`-aware variant. -/
structure ParsedInscription2 where
  contentType : List Nat
  fields : List InsField
  body : List Nat
  contentEncoding : Option (List Nat)
deriving DecidableEq

/-- The body of `extractInscriptionData` (first variant) inside its `try`:
field loop, separator skip, body loop, chunk assembly, content-type filter.
`Except.ok none` is the `return null` of the missing-content-type filter;
errors are the exceptions that the enclosing `catch` turns into `null`. -/
def extractInscriptionData1E (raw : List Nat) (pointer : Nat) : Except ParseErr (Option ParsedInscription1) :=
  match readFields raw pointer with
  | Except.error e => Except.error e
  | Except.ok (flds, p1) =>
    match readBody raw (skipSeparator raw p1) with
    | Except.error e => Except.error e
    | Except.ok (chunks, _) =>
      match flds.find? (hasSingleByteTag knownFields_content_type) with
      | none => Except.ok none
      | some ctField =>
        Except.ok (some ⟨uint8ArrayToSingleByteChars ctField.value, flds, combineChunks chunks⟩)

/-- `extractInscriptionData` (first variant) with its `try/catch`: any thrown
error becomes `null`. -/
def extractInscriptionData1 (raw : List Nat) (pointer : Nat) : Option ParsedInscription1 :=
  match extractInscriptionData1E raw pointer with
  | Except.error _ => none
  | Except.ok r => r

/-- The body of `extractInscriptionData` (second variant) inside its `try`:
additionally resolves `content_encoding` and, when it decodes to `"br"`,
replaces the assembled body by the Brotli decompression `br` of it; a
decompression failure is a thrown error. -/
def extractInscriptionData2E (br : List Nat → Option (List Nat)) (raw : List Nat) (pointer : Nat) :
    Except ParseErr (Option ParsedInscription2) :=
  match readFields raw pointer with
  | Except.error e => Except.error e
  | Except.ok (flds, p1) =>
    match readBody raw (skipSeparator raw p1) with
    | Except.error e => Except.error e
    | Except.ok (chunks, _) =>
      match getKnownFieldValue flds knownFields_content_type with
      | none => Except.ok none
      | some contentTypeRaw =>
        if (getKnownFieldValue flds knownFields_content_encoding).map uint8ArrayToSingleByteChars
            = some (strBytes "br") then
          match br (combineChunks chunks) with
          | none => Except.error ParseErr.decompressionFailed
          | some decompressed =>
            Except.ok (some ⟨uint8ArrayToSingleByteChars contentTypeRaw, flds, decompressed,
              (getKnownFieldValue flds knownFields_content_encoding).map uint8ArrayToSingleByteChars⟩)
        else
          Except.ok (some ⟨uint8ArrayToSingleByteChars contentTypeRaw, flds, combineChunks chunks,
            (getKnownFieldValue flds knownFields_content_encoding).map uint8ArrayToSingleByteChars⟩)

/-- `extractInscriptionData` (second variant) with its `try/catch`. -/
def extractInscriptionData2 (br : List Nat → Option (List Nat)) (raw : List Nat) (pointer : Nat) :
    Option ParsedInscription2 :=
  match extractInscriptionData2E br raw pointer with
  | Except.error _ => none
  | Except.ok r => r

/-- Modelled from the spec: the start-of-envelope marker, the "false-if"
sequence `OP_FALSE OP_IF PUSH3 "ord"` (4.2 and glossary). -/
def inscriptionMark : List Nat := [0x00, 0x63, 0x03, 0x6f, 0x72, 0x64]

/-- Modelled from the spec: `getNextInscriptionMark(raw, startPosition)` -
the offset of the first field/body byte just past the first occurrence of
the envelope marker at or after `startPosition`, or `none` when there is no
further envelope (4.2; the source's `-1` sentinel is `none`). -/
def getNextInscriptionMark (raw : List Nat) (startPosition : Nat) : Option Nat :=
  (((List.range raw.length).filter
    (fun i => decide (startPosition ≤ i) && decide ((raw.drop i).take 6 = inscriptionMark))).head?).map
    (fun i => i + 6)

/-- The mark offsets visited by the scan loop of
`parseInscriptionsWithinWitness`, starting from `startPosition`
(fuel-indexed). -/
def markPositionsF : Nat → List Nat → Nat → List Nat
  | 0, _, _ => []
  | fuel + 1, raw, startPosition =>
    match getNextInscriptionMark raw startPosition with
    | none => []
    | some pointer => pointer :: markPositionsF fuel raw pointer

/-- The mark offsets visited by the scan loop from offset 0, at the
canonical iteration budget. -/
def markPositions (raw : List Nat) : List Nat :=
  markPositionsF (raw.length + 1) raw 0

/-- The scan loop of `parseInscriptionsWithinWitness` (first variant):
find the next mark, extract there, collect a successful record, and resume
the scan at the offset of the mark just found (fuel-indexed). -/
def parseLoop1F : Nat → List Nat → Nat → List ParsedInscription1
  | 0, _, _ => []
  | fuel + 1, raw, startPosition =>
    match getNextInscriptionMark raw startPosition with
    | none => []
    | some pointer =>
      match extractInscriptionData1 raw pointer with
      | none => parseLoop1F fuel raw pointer
      | some insc => insc :: parseLoop1F fuel raw pointer

/-- The scan loop (first variant) at its canonical iteration budget. -/
def parseLoop1 (raw : List Nat) (startPosition : Nat) : List ParsedInscription1 :=
  parseLoop1F (raw.length + 1) raw startPosition

/-- The scan loop of `parseInscriptionsWithinWitness` (second variant). -/
def parseLoop2F (br : List Nat → Option (List Nat)) : Nat → List Nat → Nat → List ParsedInscription2
  | 0, _, _ => []
  | fuel + 1, raw, startPosition =>
    match getNextInscriptionMark raw startPosition with
    | none => []
    | some pointer =>
      match extractInscriptionData2 br raw pointer with
      | none => parseLoop2F br fuel raw pointer
      | some insc => insc :: parseLoop2F br fuel raw pointer

/-- The scan loop (second variant) at its canonical iteration budget. -/
def parseLoop2 (br : List Nat → Option (List Nat)) (raw : List Nat) (startPosition : Nat) :
    List ParsedInscription2 :=
  parseLoop2F br (raw.length + 1) raw startPosition

/-- `parseInscriptionsWithinWitness` (first variant): join the witness
items, hex-decode, scan from 0; `null` when nothing was found. -/
def parseInscriptionsWithinWitness1 (witness : List (List Nat)) : Option (List ParsedInscription1) :=
  if 0 < (parseLoop1 (hexStringToUint8Array witness.flatten) 0).length
  then some (parseLoop1 (hexStringToUint8Array witness.flatten) 0) else none

/-- `parseInscriptionsWithinWitness` (second variant). -/
def parseInscriptionsWithinWitness2 (br : List Nat → Option (List Nat)) (witness : List (List Nat)) :
    Option (List ParsedInscription2) :=
  if 0 < (parseLoop2 br (hexStringToUint8Array witness.flatten) 0).length
  then some (parseLoop2 br (hexStringToUint8Array witness.flatten) 0) else none

/-- `parseInscriptions` (first variant): a transaction is the list of its
inputs' optional witness item lists; per-input results are concatenated in
input order. -/
def parseInscriptions1 : List (Option (List (List Nat))) → List ParsedInscription1
  | [] => []
  | vinWitness :: rest =>
    (match vinWitness with
     | none => []
     | some w =>
       match parseInscriptionsWithinWitness1 w with
       | none => []
       | some l => l) ++ parseInscriptions1 rest

/-- `parseInscriptions` (second variant). -/
def parseInscriptions2 (br : List Nat → Option (List Nat)) :
    List (Option (List (List Nat))) → List ParsedInscription2
  | [] => []
  | vinWitness :: rest =>
    (match vinWitness with
     | none => []
     | some w =>
       match parseInscriptionsWithinWitness2 br w with
       | none => []
       | some l => l) ++ parseInscriptions2 br rest

/-- The scan loop in the `Except` embedding: the only error handler in the
whole pipeline is the `try/catch` of `extractInscriptionData`, embedded here
as the inner match that maps a thrown error to `none`; every other step
propagates errors. -/
def parseLoop2EF (br : List Nat → Option (List Nat)) :
    Nat → List Nat → Nat → Except ParseErr (List ParsedInscription2)
  | 0, _, _ => Except.ok []
  | fuel + 1, raw, startPosition =>
    match getNextInscriptionMark raw startPosition with
    | none => Except.ok []
    | some pointer =>
      match (match extractInscriptionData2E br raw pointer with
             | Except.error _ => none
             | Except.ok r => r) with
      | none => parseLoop2EF br fuel raw pointer
      | some insc =>
        match parseLoop2EF br fuel raw pointer with
        | Except.error e => Except.error e
        | Except.ok rest => Except.ok (insc :: rest)

/-- `parseInscriptionsWithinWitness` in the `Except` embedding. -/
def parseInscriptionsWithinWitnessE (br : List Nat → Option (List Nat)) (witness : List (List Nat)) :
    Except ParseErr (Option (List ParsedInscription2)) :=
  match parseLoop2EF br ((hexStringToUint8Array witness.flatten).length + 1)
      (hexStringToUint8Array witness.flatten) 0 with
  | Except.error e => Except.error e
  | Except.ok inscriptions =>
    Except.ok (if 0 < inscriptions.length then some inscriptions else none)

/-- `parseInscriptions` in the `Except` embedding: an uncaught error anywhere
below would surface here as `Except.error`. -/
def parseInscriptionsE (br : List Nat → Option (List Nat)) :
    List (Option (List (List Nat))) → Except ParseErr (List ParsedInscription2)
  | [] => Except.ok []
  | vinWitness :: rest =>
    match vinWitness with
    | none => parseInscriptionsE br rest
    | some w =>
      match parseInscriptionsWithinWitnessE br w with
      | Except.error e => Except.error e
      | Except.ok vinInscriptions =>
        match parseInscriptionsE br rest with
        | Except.error e => Except.error e
        | Except.ok others =>
          Except.ok ((match vinInscriptions with | none => [] | some l => l) ++ others)

/-- Accessor `getContentString` of the second variant: UTF-8 decoding (the
decoder is an external collaborator, a parameter here) of the record's
(possibly decompressed) body. -/
def getContentString2 (utf8 : List Nat → List Nat) (i : ParsedInscription2) : List Nat :=
  utf8 i.body

/-- Accessor `getData` of the first variant: base64 of the single-byte-char
decoding of the assembled body. -/
def getData1 (i : ParsedInscription1) : List Nat :=
  encodeToBase64 (uint8ArrayToSingleByteChars i.body)

/-- Accessor `getDataUri` of the first variant:
`data:<contentType>;base64,<base64 of the body>`. -/
def getDataUri1 (i : ParsedInscription1) : List Nat :=
  strBytes "data:" ++ i.contentType ++ strBytes ";base64," ++
    encodeToBase64 (uint8ArrayToSingleByteChars i.body)

/-- Accessor `getData` of the second variant. -/
def getData2 (i : ParsedInscription2) : List Nat :=
  encodeToBase64 (uint8ArrayToSingleByteChars i.body)

/-- Accessor `getDataUri` of the second variant. -/
def getDataUri2 (i : ParsedInscription2) : List Nat :=
  strBytes "data:" ++ i.contentType ++ strBytes ";base64," ++
    encodeToBase64 (uint8ArrayToSingleByteChars i.body)

/-- Accessor `getMetadata` of the second variant: `undefined` when there is
no metadata field, otherwise the result of the external CBOR decoder
(a parameter; `none` models a decode failure). -/
def getMetadata2 {α : Type} (cbor : List Nat → Option α) (i : ParsedInscription2) : Option α :=
  match getKnownFieldValue i.fields knownFields_metadata with
  | none => none
  | some metadataRaw => cbor metadataRaw

/-- Accessor `getContentEncoding` of the second variant. -/
def getContentEncoding2 (i : ParsedInscription2) : Option (List Nat) :=
  i.contentEncoding

/-- The observations compared between the two variants: content type, field
list, `getData()` and `getDataUri()`. -/
structure InscriptionObs where
  contentType : List Nat
  fields : List InsField
  data : List Nat
  dataUri : List Nat
deriving DecidableEq

/-- Observations of a first-variant record. -/
def toObs1 (i : ParsedInscription1) : InscriptionObs :=
  ⟨i.contentType, i.fields, getData1 i, getDataUri1 i⟩

/-- Observations of a second-variant record. -/
def toObs2 (i : ParsedInscription2) : InscriptionObs :=
  ⟨i.contentType, i.fields, getData2 i, getDataUri2 i⟩

/-- The assembled (pre-decompression) body of the envelope at `pointer`:
what the chunk-collection and copy loops produce there. -/
def assembledBody (raw : List Nat) (pointer : Nat) : Option (List Nat) :=
  match readFields raw pointer with
  | Except.error _ => none
  | Except.ok (_, p1) =>
    match readBody raw (skipSeparator raw p1) with
    | Except.error _ => none
    | Except.ok (chunks, _) => some (combineChunks chunks)

/-! ## Concrete fixtures used by the witnesses -/

/-- A trivial stand-in decompressor: the identity. -/
def brId : List Nat → Option (List Nat) := fun l => some l

/-- A stand-in decompressor that visibly transforms its input. -/
def brDup : List Nat → Option (List Nat) := fun l => some (l ++ l)

/-- A stand-in UTF-8 decoder: the identity on code lists. -/
def utf8Id : List Nat → List Nat := fun l => l

/-- A stand-in CBOR decoder that fails on every input. -/
def cborNone : List Nat → Option (List Nat) := fun _ => none

/-- Hex of a witness holding one well-formed envelope:
`content_type = "text/plain"`, body `"hi"`. -/
def hexA : String :=
  "0063036f72640101" ++ "0a746578742f706c61696e" ++ "00" ++ "026869" ++ "68"

/-- A one-input transaction whose witness is `hexA`. -/
def txA : List (Option (List (List Nat))) := [some [strBytes hexA]]

/-- The inscription record parsed from `txA`. -/
def inscA : ParsedInscription2 :=
  ⟨strBytes "text/plain", [⟨[1], strBytes "text/plain"⟩], [104, 105], none⟩

/-- Hex of a witness with one envelope carrying a metadata field (tag 5). -/
def hexMeta : String :=
  "0063036f72640101" ++ "0a746578742f706c61696e" ++ "0105" ++ "01a0" ++ "00" ++ "026869" ++ "68"

/-- A one-input transaction whose witness is `hexMeta`. -/
def txMeta : List (Option (List (List Nat))) := [some [strBytes hexMeta]]

/-- The inscription record parsed from `txMeta`. -/
def inscMeta : ParsedInscription2 :=
  ⟨strBytes "text/plain", [⟨[1], strBytes "text/plain"⟩, ⟨[5], [160]⟩], [104, 105], none⟩

/-- A buffer with one envelope that has no fields and no content type. -/
def rawNoCT : List Nat := inscriptionMark ++ [0, 1, 7, 0x68]

/-- A buffer whose first envelope declares a PUSHDATA2 length (10000) far
beyond the buffer end, followed by a second, well-formed envelope. -/
def rawTrunc : List Nat :=
  inscriptionMark ++ [77, 16, 39] ++ inscriptionMark ++
    [1, 1, 10, 116, 101, 120, 116, 47, 112, 108, 97, 105, 110, 0, 2, 104, 105, 0x68]

/-- A buffer with one envelope whose `content_encoding` field is `"br"`. -/
def rawBr : List Nat :=
  inscriptionMark ++
    [1, 1, 10, 116, 101, 120, 116, 47, 112, 108, 97, 105, 110, 1, 9, 2, 98, 114, 0, 2, 104, 105, 0x68]

/-- A buffer with one envelope whose body is split over two pushdata chunks. -/
def rawTwoChunks : List Nat :=
  inscriptionMark ++
    [1, 1, 10, 116, 101, 120, 116, 47, 112, 108, 97, 105, 110, 0, 1, 104, 1, 105, 0x68]

/-- The inscription record extracted from `rawBr` under `brDup`. -/
def inscBr : ParsedInscription2 :=
  ⟨strBytes "text/plain", [⟨[1], strBytes "text/plain"⟩, ⟨[9], strBytes "br"⟩],
    [104, 105, 104, 105], some (strBytes "br")⟩

/-- The first-variant record extracted from `rawTwoChunks`. -/
def inscTwoChunks : ParsedInscription1 :=
  ⟨strBytes "text/plain", [⟨[1], strBytes "text/plain"⟩], [104, 105]⟩

/-- The single-item witness list holding `hexA`. -/
def witnessA : List (List Nat) := [strBytes hexA]

/-- A buffer with one envelope whose only type-like field uses the two-byte
tag `[1, 0]`. -/
def rawMultiByteTag : List Nat := inscriptionMark ++ [2, 1, 0, 1, 42, 0, 1, 7, 0x68]

/-! ## Basic facts about the pushdata reader and the scanner -/

theorem readSliceE_ok {raw : List Nat} {s l pos q : Nat} {bs : List Nat}
    (h : readSliceE raw s l pos = Except.ok (bs, q)) : q = s + l ∧ s + l ≤ raw.length := by
  unfold readSliceE at h
  split at h
  next hle =>
    simp only [Except.ok.injEq, Prod.mk.injEq] at h
    exact ⟨h.2.symm, hle⟩
  next => simp at h

theorem readLengthThenSlice_ok {raw : List Nat} {pointer lenBytes q : Nat} {bs : List Nat}
    (h : readLengthThenSlice raw pointer lenBytes = Except.ok (bs, q)) :
    pointer < q ∧ q ≤ raw.length := by
  unfold readLengthThenSlice at h
  cases h1 : readSliceE raw (pointer + 1) lenBytes pointer with
  | error e => rw [h1] at h; simp at h
  | ok lp =>
    obtain ⟨lb, p⟩ := lp
    rw [h1] at h
    have hh1 := readSliceE_ok h1
    have hh2 := readSliceE_ok h
    omega

theorem readPushdataE_ok {raw : List Nat} {pointer q : Nat} {bs : List Nat}
    (h : readPushdataE raw pointer = Except.ok (bs, q)) : pointer < q ∧ q ≤ raw.length := by
  unfold readPushdataE at h
  split at h
  next hlt =>
    split at h
    next =>
      simp only [Except.ok.injEq, Prod.mk.injEq] at h
      omega
    next =>
      split at h
      next =>
        have := readSliceE_ok h
        omega
      next =>
        split at h
        next => exact readLengthThenSlice_ok h
        next =>
          split at h
          next => exact readLengthThenSlice_ok h
          next =>
            split at h
            next => exact readLengthThenSlice_ok h
            next => simp at h
  next => simp at h

theorem getNextInscriptionMark_some {raw : List Nat} {start p : Nat}
    (h : getNextInscriptionMark raw start = some p) : start + 6 ≤ p ∧ p ≤ raw.length := by
  unfold getNextInscriptionMark at h
  cases hl : (List.range raw.length).filter
      (fun i => decide (start ≤ i) && decide ((raw.drop i).take 6 = inscriptionMark)) with
  | nil => rw [hl] at h; simp at h
  | cons i t =>
    rw [hl] at h
    simp only [List.head?_cons, Option.map_some'] at h
    have hi : i ∈ (List.range raw.length).filter
        (fun i => decide (start ≤ i) && decide ((raw.drop i).take 6 = inscriptionMark)) := by
      rw [hl]; exact List.mem_cons_self i t
    obtain ⟨hmem, hcond⟩ := List.mem_filter.mp hi
    rw [Bool.and_eq_true, decide_eq_true_eq, decide_eq_true_eq] at hcond
    obtain ⟨hstart, htake⟩ := hcond
    have hlen : ((raw.drop i).take 6).length = 6 := by rw [htake]; rfl
    rw [List.length_take, List.length_drop] at hlen
    simp only [Option.some.injEq] at h
    omega

theorem markPositionsF_head {fuel : Nat} {raw : List Nat} {start x : Nat} {t : List Nat}
    (h : markPositionsF fuel raw start = x :: t) : getNextInscriptionMark raw start = some x := by
  cases fuel with
  | zero => simp [markPositionsF] at h
  | succ n =>
    unfold markPositionsF at h
    cases hm : getNextInscriptionMark raw start with
    | none => rw [hm] at h; simp at h
    | some p =>
      rw [hm] at h
      simp only [List.cons.injEq] at h
      rw [h.1]

theorem markPositionsF_chain (raw : List Nat) :
    ∀ fuel start, List.Chain' (fun a b => a < b) (markPositionsF fuel raw start) := by
  intro fuel
  induction fuel with
  | zero => intro start; simp [markPositionsF]
  | succ n ih =>
    intro start
    unfold markPositionsF
    cases hm : getNextInscriptionMark raw start with
    | none => simp
    | some p =>
      rw [List.chain'_cons']
      refine ⟨?_, ih p⟩
      intro b hb
      cases hml : markPositionsF n raw p with
      | nil => rw [hml] at hb; simp at hb
      | cons x t =>
        rw [hml] at hb
        simp only [List.head?_cons, Option.mem_def, Option.some.injEq] at hb
        subst hb
        have h2 := getNextInscriptionMark_some (markPositionsF_head hml)
        omega

theorem parseLoop2F_stable (br : List Nat → Option (List Nat)) (raw : List Nat) :
    ∀ f1 f2 start, raw.length - start < f1 → raw.length - start < f2 →
      parseLoop2F br f1 raw start = parseLoop2F br f2 raw start := by
  intro f1
  induction f1 with
  | zero => intro f2 start h1 h2; exact absurd h1 (Nat.not_lt_zero _)
  | succ n ih =>
    intro f2 start h1 h2
    cases f2 with
    | zero => exact absurd h2 (Nat.not_lt_zero _)
    | succ m =>
      unfold parseLoop2F
      cases hm : getNextInscriptionMark raw start with
      | none => simp
      | some p =>
        have hb := getNextInscriptionMark_some hm
        have hrec := ih m p (by omega) (by omega)
        cases hx : extractInscriptionData2 br raw p <;> simp [hx, hrec]

theorem parseLoop2_resume {br : List Nat → Option (List Nat)} {raw : List Nat} {start p : Nat}
    (hm : getNextInscriptionMark raw start = some p)
    (hx : extractInscriptionData2 br raw p = none) :
    parseLoop2 br raw start = parseLoop2 br raw p := by
  have hb := getNextInscriptionMark_some hm
  unfold parseLoop2
  conv_lhs => rw [parseLoop2F]
  simp only [hm, hx]
  exact parseLoop2F_stable br raw raw.length (raw.length + 1) p (by omega) (by omega)

/-! ## The copy loop assembles the chunk concatenation -/

theorem copySegments_spec :
    ∀ (segs : List (List Nat)) (buffer : List Nat) (idx : Nat),
      buffer.length = idx + (segs.map List.length).sum →
      copySegments segs buffer idx = buffer.take idx ++ segs.flatten := by
  intro segs
  induction segs with
  | nil =>
    intro buffer idx h
    simp only [copySegments, List.flatten_nil, List.append_nil]
    rw [List.take_of_length_le (by simp at h; omega)]
  | cons seg rest ih =>
    intro buffer idx h
    simp only [List.map_cons, List.sum_cons] at h
    have hfit : idx + seg.length ≤ buffer.length := by omega
    have hw : (writeAt buffer idx seg).length = buffer.length := by
      unfold writeAt
      simp only [List.length_append, List.length_take, List.length_drop]
      omega
    have hlen2 : (writeAt buffer idx seg).length = (idx + seg.length) + (rest.map List.length).sum := by
      rw [hw]; omega
    rw [copySegments, ih (writeAt buffer idx seg) (idx + seg.length) hlen2]
    have htake : (writeAt buffer idx seg).take (idx + seg.length) = buffer.take idx ++ seg := by
      unfold writeAt
      have hl : (buffer.take idx ++ seg).length = idx + seg.length := by
        simp only [List.length_append, List.length_take]
        omega
      rw [List.take_append_of_le_length (le_of_eq hl.symm), List.take_of_length_le (le_of_eq hl)]
    rw [htake, List.flatten_cons, List.append_assoc]

theorem combineChunks_eq_flatten (chunks : List (List Nat)) :
    combineChunks chunks = chunks.flatten := by
  unfold combineChunks
  rw [copySegments_spec chunks (List.replicate ((chunks.map List.length).sum) 0) 0 (by simp)]
  simp

theorem combineChunks_length (chunks : List (List Nat)) :
    (combineChunks chunks).length = (chunks.map List.length).sum := by
  rw [combineChunks_eq_flatten]
  simp [List.length_flatten]

/-! ## The content-type field predicate -/

theorem hasSingleByteTag_iff (t : Nat) (f : InsField) :
    hasSingleByteTag t f = true ↔ f.tag = [t] := by
  unfold hasSingleByteTag
  rw [Bool.and_eq_true, beq_iff_eq, beq_iff_eq]
  constructor
  · rintro ⟨h1, h2⟩
    cases htag : f.tag with
    | nil => rw [htag] at h1; simp at h1
    | cons a l =>
      rw [htag] at h1 h2
      simp only [List.length_cons, List.headD_cons] at h1 h2
      have : l = [] := List.eq_nil_of_length_eq_zero (by omega)
      rw [this, h2]
  · intro h
    rw [h]
    constructor <;> rfl

/-! ## Inversion of the envelope extractors -/

theorem extractInscriptionData1_some {raw : List Nat} {pointer : Nat} {insc : ParsedInscription1}
    (h : extractInscriptionData1 raw pointer = some insc) :
    ∃ flds p1 chunks p2 ctf,
      readFields raw pointer = Except.ok (flds, p1) ∧
      readBody raw (skipSeparator raw p1) = Except.ok (chunks, p2) ∧
      flds.find? (hasSingleByteTag knownFields_content_type) = some ctf ∧
      insc = ⟨uint8ArrayToSingleByteChars ctf.value, flds, combineChunks chunks⟩ := by
  unfold extractInscriptionData1 extractInscriptionData1E at h
  cases hf : readFields raw pointer with
  | error e => simp [hf] at h
  | ok fp =>
    obtain ⟨flds, p1⟩ := fp
    simp only [hf] at h
    cases hb : readBody raw (skipSeparator raw p1) with
    | error e => simp [hb] at h
    | ok cp =>
      obtain ⟨chunks, p2⟩ := cp
      simp only [hb] at h
      cases hct : flds.find? (hasSingleByteTag knownFields_content_type) with
      | none => simp [hct] at h
      | some ctf =>
        simp only [hct, Option.some.injEq] at h
        exact ⟨flds, p1, chunks, p2, ctf, rfl, hb, hct, h.symm⟩

theorem extractInscriptionData2_some {br : List Nat → Option (List Nat)} {raw : List Nat}
    {pointer : Nat} {insc : ParsedInscription2}
    (h : extractInscriptionData2 br raw pointer = some insc) :
    ∃ flds p1 chunks p2 ctf,
      readFields raw pointer = Except.ok (flds, p1) ∧
      readBody raw (skipSeparator raw p1) = Except.ok (chunks, p2) ∧
      flds.find? (hasSingleByteTag knownFields_content_type) = some ctf ∧
      insc.contentType = uint8ArrayToSingleByteChars ctf.value ∧
      insc.fields = flds ∧
      insc.contentEncoding
        = (getKnownFieldValue flds knownFields_content_encoding).map uint8ArrayToSingleByteChars ∧
      ((insc.contentEncoding = some (strBytes "br") ∧ br (combineChunks chunks) = some insc.body) ∨
       (insc.contentEncoding ≠ some (strBytes "br") ∧ insc.body = combineChunks chunks)) := by
  unfold extractInscriptionData2 extractInscriptionData2E at h
  cases hf : readFields raw pointer with
  | error e => simp [hf] at h
  | ok fp =>
    obtain ⟨flds, p1⟩ := fp
    simp only [hf] at h
    cases hb : readBody raw (skipSeparator raw p1) with
    | error e => simp [hb] at h
    | ok cp =>
      obtain ⟨chunks, p2⟩ := cp
      simp only [hb] at h
      cases hct : getKnownFieldValue flds knownFields_content_type with
      | none => simp [hct] at h
      | some ctRaw =>
        simp only [hct] at h
        have hct2 := hct
        unfold getKnownFieldValue at hct2
        obtain ⟨ctf, hfind, hval⟩ := Option.map_eq_some'.mp hct2
        by_cases henc : (getKnownFieldValue flds knownFields_content_encoding).map
            uint8ArrayToSingleByteChars = some (strBytes "br")
        · rw [if_pos henc] at h
          cases hbr : br (combineChunks chunks) with
          | none => rw [hbr] at h; simp at h
          | some dec =>
            rw [hbr] at h
            dsimp only at h
            simp only [Option.some.injEq] at h
            refine ⟨flds, p1, chunks, p2, ctf, rfl, hb, hfind, ?_, ?_, ?_, ?_⟩
            · rw [← h, hval]
            · rw [← h]
            · rw [← h]
            · left
              rw [← h]
              exact ⟨henc, hbr⟩
        · rw [if_neg henc] at h
          dsimp only at h
          simp only [Option.some.injEq] at h
          refine ⟨flds, p1, chunks, p2, ctf, rfl, hb, hfind, ?_, ?_, ?_, ?_⟩
          · rw [← h, hval]
          · rw [← h]
          · rw [← h]
          · right
            rw [← h]
            exact ⟨henc, rfl⟩

/-! ## Membership in the parse results -/

theorem mem_parseLoop2F {br : List Nat → Option (List Nat)} {raw : List Nat} :
    ∀ fuel start {insc : ParsedInscription2}, insc ∈ parseLoop2F br fuel raw start →
      ∃ p, extractInscriptionData2 br raw p = some insc := by
  intro fuel
  induction fuel with
  | zero => intro start insc h; simp [parseLoop2F] at h
  | succ n ih =>
    intro start insc h
    unfold parseLoop2F at h
    cases hm : getNextInscriptionMark raw start with
    | none => simp [hm] at h
    | some p =>
      simp only [hm] at h
      cases hx : extractInscriptionData2 br raw p with
      | none => simp only [hx] at h; exact ih p h
      | some i =>
        simp only [hx] at h
        rcases List.mem_cons.mp h with h1 | h2
        · exact ⟨p, by rw [hx, h1]⟩
        · exact ih p h2

theorem mem_parseInscriptions2 {br : List Nat → Option (List Nat)}
    {tx : List (Option (List (List Nat)))} {insc : ParsedInscription2}
    (h : insc ∈ parseInscriptions2 br tx) :
    ∃ raw p, extractInscriptionData2 br raw p = some insc := by
  induction tx with
  | nil => simp [parseInscriptions2] at h
  | cons v rest ih =>
    unfold parseInscriptions2 at h
    rcases List.mem_append.mp h with h1 | h2
    · cases v with
      | none => simp at h1
      | some w =>
        cases hw : parseInscriptionsWithinWitness2 br w with
        | none => simp [hw] at h1
        | some l =>
          simp only [hw] at h1
          unfold parseInscriptionsWithinWitness2 at hw
          split at hw
          next =>
            simp only [Option.some.injEq] at hw
            rw [← hw] at h1
            unfold parseLoop2 at h1
            obtain ⟨p, hp⟩ := mem_parseLoop2F _ 0 h1
            exact ⟨hexStringToUint8Array w.flatten, p, hp⟩
          next => simp at hw
    · exact ih h2

/-! ## Observational agreement of the two extractors -/

theorem extract_obs_eq {br : List Nat → Option (List Nat)} {raw : List Nat} {p : Nat}
    (henc : ∀ flds q, readFields raw p = Except.ok (flds, q) →
      getKnownFieldValue flds knownFields_content_encoding = none) :
    (extractInscriptionData1 raw p).map toObs1 = (extractInscriptionData2 br raw p).map toObs2 := by
  unfold extractInscriptionData1 extractInscriptionData2
  unfold extractInscriptionData1E extractInscriptionData2E
  cases hf : readFields raw p with
  | error e => simp [hf]
  | ok fp =>
    obtain ⟨flds, p1⟩ := fp
    have henc2 := henc flds p1 hf
    cases hb : readBody raw (skipSeparator raw p1) with
    | error e => simp [hf, hb]
    | ok cp =>
      obtain ⟨chunks, p2⟩ := cp
      cases hct : flds.find? (hasSingleByteTag knownFields_content_type) with
      | none => simp [hf, hb, getKnownFieldValue, hct]
      | some ctf =>
        simp only [getKnownFieldValue, Option.map_eq_none'] at henc2
        simp [hf, hb, getKnownFieldValue, hct, henc2, toObs1, toObs2, getData1, getData2,
          getDataUri1, getDataUri2]

theorem parseLoop_obs_eq (br : List Nat → Option (List Nat)) (raw : List Nat) :
    ∀ fuel start,
      (∀ p ∈ markPositionsF fuel raw start, ∀ flds q, readFields raw p = Except.ok (flds, q) →
        getKnownFieldValue flds knownFields_content_encoding = none) →
      (parseLoop1F fuel raw start).map toObs1 = (parseLoop2F br fuel raw start).map toObs2 := by
  intro fuel
  induction fuel with
  | zero => intro start hp; simp [parseLoop1F, parseLoop2F]
  | succ n ih =>
    intro start hp
    unfold parseLoop1F parseLoop2F
    cases hm : getNextInscriptionMark raw start with
    | none => simp
    | some p =>
      dsimp only
      have hmem : p ∈ markPositionsF (n + 1) raw start := by
        unfold markPositionsF
        rw [hm]
        exact List.mem_cons_self p (markPositionsF n raw p)
      have hobs : (extractInscriptionData1 raw p).map toObs1
          = (extractInscriptionData2 br raw p).map toObs2 := extract_obs_eq (hp p hmem)
      have hrest : ∀ q ∈ markPositionsF n raw p, ∀ flds r, readFields raw q = Except.ok (flds, r) →
          getKnownFieldValue flds knownFields_content_encoding = none := by
        intro q hq
        refine hp q ?_
        unfold markPositionsF
        rw [hm]
        exact List.mem_cons_of_mem p hq
      cases hx1 : extractInscriptionData1 raw p with
      | none =>
        rw [hx1] at hobs
        cases hx2 : extractInscriptionData2 br raw p with
        | some i => rw [hx2] at hobs; simp at hobs
        | none => dsimp only; exact ih p hrest
      | some i1 =>
        rw [hx1] at hobs
        cases hx2 : extractInscriptionData2 br raw p with
        | none => rw [hx2] at hobs; simp at hobs
        | some i2 =>
          rw [hx2] at hobs
          simp only [Option.map_some', Option.some.injEq] at hobs
          dsimp only
          simp only [List.map_cons, hobs, List.cons.injEq]
          exact ⟨trivial, ih p hrest⟩

/-! ## No error escapes the catch boundary -/

theorem parseLoop2EF_ok (br : List Nat → Option (List Nat)) (raw : List Nat) :
    ∀ fuel start, parseLoop2EF br fuel raw start = Except.ok (parseLoop2F br fuel raw start) := by
  intro fuel
  induction fuel with
  | zero => intro start; rfl
  | succ n ih =>
    intro start
    unfold parseLoop2EF parseLoop2F
    cases hm : getNextInscriptionMark raw start with
    | none => rfl
    | some p =>
      have hcatch : (match extractInscriptionData2E br raw p with
          | Except.error _ => none
          | Except.ok r => r) = extractInscriptionData2 br raw p := rfl
      dsimp only
      rw [hcatch]
      cases hx : extractInscriptionData2 br raw p with
      | none => dsimp only; exact ih p
      | some insc => dsimp only; rw [ih p]

/-! ## The claims -/

/-- Claim C1: for every transaction (a list of inputs with optional hex
witness-item lists) and every decompressor, the `Except`-embedded
`parseInscriptions` returns `Except.ok` of the plain result: no internal
failure (malformed data, truncated pushdata, decompression failure) ever
escapes the top-level call, because the only failure sources sit inside
`extractInscriptionData`, whose `try/catch` turns every error into a dropped
record, so failures only mean fewer inscription records. -/
theorem claimC1_noErrorEscapes (br : List Nat → Option (List Nat))
    (tx : List (Option (List (List Nat)))) :
    parseInscriptionsE br tx = Except.ok (parseInscriptions2 br tx) := by
  induction tx with
  | nil => rfl
  | cons v rest ih =>
    cases v with
    | none => simp only [parseInscriptionsE, parseInscriptions2, ih]; rfl
    | some w =>
      unfold parseInscriptionsE parseInscriptions2
      unfold parseInscriptionsWithinWitnessE parseInscriptionsWithinWitness2 parseLoop2
      dsimp only
      rw [parseLoop2EF_ok, ih]

/-- Claim C2: every record returned by `parseInscriptions` carries a field
whose tag is the single content_type byte 1; an envelope whose fields lack a
content type yields no record and no error, and the scan continues at the
same resume offset, so records of other envelopes are unaffected. -/
theorem claimC2_contentTypeFilter (br : List Nat → Option (List Nat))
    (tx : List (Option (List (List Nat)))) :
    (∀ insc ∈ parseInscriptions2 br tx, ∃ f ∈ insc.fields, f.tag = [knownFields_content_type]) ∧
    (∀ raw start p, getNextInscriptionMark raw start = some p →
      (∀ flds q, readFields raw p = Except.ok (flds, q) →
        getKnownFieldValue flds knownFields_content_type = none) →
      extractInscriptionData2 br raw p = none ∧
        parseLoop2 br raw start = parseLoop2 br raw p) := by
  constructor
  · intro insc hmem
    obtain ⟨raw, p, hx⟩ := mem_parseInscriptions2 hmem
    obtain ⟨flds, p1, chunks, p2, ctf, hf, hb, hfind, hct, hfl, _, _⟩ :=
      extractInscriptionData2_some hx
    refine ⟨ctf, ?_, ?_⟩
    · rw [hfl]
      exact List.mem_of_find?_eq_some hfind
    · exact (hasSingleByteTag_iff knownFields_content_type ctf).mp (List.find?_some hfind)
  · intro raw start p hm hnoct
    have hx : extractInscriptionData2 br raw p = none := by
      unfold extractInscriptionData2 extractInscriptionData2E
      cases hf : readFields raw p with
      | error e => simp [hf]
      | ok fp =>
        obtain ⟨flds, p1⟩ := fp
        have hc := hnoct flds p1 hf
        cases hb : readBody raw (skipSeparator raw p1) with
        | error e => simp [hf, hb]
        | ok cp =>
          obtain ⟨chunks, p2⟩ := cp
          simp [hf, hb, hc]
    exact ⟨hx, parseLoop2_resume hm hx⟩

/-- Claim C2 witness: the `"hi"` envelope's record has the content-type field,
and the field-less envelope of `rawNoCT` yields no record while the scan
resumes. -/
theorem claimC2_witness :
    (∃ f ∈ inscA.fields, f.tag = [knownFields_content_type]) ∧
    (extractInscriptionData2 brId rawNoCT 6 = none ∧
      parseLoop2 brId rawNoCT 0 = parseLoop2 brId rawNoCT 6) :=
  ⟨(claimC2_contentTypeFilter brId txA).1 inscA (by decide),
   (claimC2_contentTypeFilter brId txA).2 rawNoCT 0 6 (by decide)
     (by
       intro flds q h
       rw [show readFields rawNoCT 6 = Except.ok ([], 6) from by decide] at h
       simp only [Except.ok.injEq, Prod.mk.injEq] at h
       rw [← h.1]
       decide)⟩

/-- Claim C3: when the metadata bytes of a returned inscription fail to
decode (the CBOR collaborator yields no value), `getMetadata` returns the
absent value instead of failing, and the record's other accessors are
untouched. -/
theorem claimC3_metadataFailureDegrades (α : Type)
    (cbor : List Nat → Option α) (br : List Nat → Option (List Nat))
    (tx : List (Option (List (List Nat)))) (insc : ParsedInscription2)
    (_hmem : insc ∈ parseInscriptions2 br tx)
    (hfail : ∀ m, getKnownFieldValue insc.fields knownFields_metadata = some m → cbor m = none) :
    getMetadata2 cbor insc = none ∧
      getData2 insc = encodeToBase64 insc.body ∧
      getContentEncoding2 insc = insc.contentEncoding := by
  refine ⟨?_, rfl, rfl⟩
  unfold getMetadata2
  cases hmd : getKnownFieldValue insc.fields knownFields_metadata with
  | none => rfl
  | some m => exact hfail m hmd

/-- Claim C3 witness: the `hexMeta` envelope's record, under a failing CBOR
decoder, still appears in the parse and its metadata accessor is absent. -/
theorem claimC3_witness :
    getMetadata2 cborNone inscMeta = none ∧
      getData2 inscMeta = encodeToBase64 inscMeta.body ∧
      getContentEncoding2 inscMeta = inscMeta.contentEncoding :=
  claimC3_metadataFailureDegrades (List Nat) cborNone brId txMeta inscMeta (by decide)
    (fun _ _ => rfl)

/-- Claim C4: a pushdata whose declared length exceeds the remaining buffer
(or whose cursor starts beyond the end) raises a `truncated` error; any such
error inside an envelope aborts only that envelope (it contributes no
record), and the scan loop resumes at the same mark offset, so the remaining
scan - including later well-formed envelopes - proceeds unchanged. -/
theorem claimC4_truncationAbortsOneEnvelope (br : List Nat → Option (List Nat))
    (raw : List Nat) (start p : Nat) (e : ParseErr)
    (hm : getNextInscriptionMark raw start = some p)
    (herr : extractInscriptionData2E br raw p = Except.error e) :
    extractInscriptionData2 br raw p = none ∧
      parseLoop2 br raw start = parseLoop2 br raw p ∧
      (∀ q, raw.length ≤ q → readPushdataE raw q = Except.error (ParseErr.truncated q)) := by
  have hx : extractInscriptionData2 br raw p = none := by
    unfold extractInscriptionData2
    rw [herr]
  refine ⟨hx, parseLoop2_resume hm hx, ?_⟩
  intro q hq
  unfold readPushdataE
  rw [dif_neg (by omega)]

/-- Claim C4 witness: in `rawTrunc` the first envelope declares a 10000-byte
push with 3 bytes remaining and is dropped, while the scan resumes and the
second envelope is still parsed. -/
theorem claimC4_witness :
    extractInscriptionData2 brId rawTrunc 6 = none ∧
      parseLoop2 brId rawTrunc 0 = parseLoop2 brId rawTrunc 6 ∧
      (∀ q, rawTrunc.length ≤ q → readPushdataE rawTrunc q = Except.error (ParseErr.truncated q)) :=
  claimC4_truncationAbortsOneEnvelope brId rawTrunc 0 6 (ParseErr.truncated 6)
    (by decide) (by decide)

/-- Claim C5: the scanner only ever returns offsets strictly beyond its
start offset (and bounded by the buffer), the mark offsets visited by the
scan loop are strictly increasing, and the loop reaches its final value
within `raw.length - start` iterations: any budget beyond that bound yields
the same result, so the loop terminates on every input. -/
theorem claimC5_scanLoopTerminates (br : List Nat → Option (List Nat)) (raw : List Nat) :
    (∀ start p, getNextInscriptionMark raw start = some p → start < p ∧ p ≤ raw.length) ∧
    List.Chain' (fun a b => a < b) (markPositions raw) ∧
    (∀ start fuel, raw.length - start < fuel →
      parseLoop2F br fuel raw start = parseLoop2 br raw start) := by
  refine ⟨?_, ?_, ?_⟩
  · intro start p h
    have := getNextInscriptionMark_some h
    omega
  · exact markPositionsF_chain raw (raw.length + 1) 0
  · intro start fuel hfuel
    exact parseLoop2F_stable br raw fuel (raw.length + 1) start hfuel (by omega)

/-- Claim C5 witness: on the bare marker buffer the scanner advances from 0
to 6, the visited offsets are increasing, and a budget of 7 already gives
the loop's final value. -/
theorem claimC5_witness :
    (0 < 6 ∧ 6 ≤ inscriptionMark.length) ∧
    List.Chain' (fun a b => a < b) (markPositions inscriptionMark) ∧
    parseLoop2F brId 7 inscriptionMark 0 = parseLoop2 brId inscriptionMark 0 :=
  ⟨(claimC5_scanLoopTerminates brId inscriptionMark).1 0 6 (by decide),
   (claimC5_scanLoopTerminates brId inscriptionMark).2.1,
   (claimC5_scanLoopTerminates brId inscriptionMark).2.2 0 7 (by decide)⟩

/-- Claim C6: when an extracted envelope's `content_encoding` field decodes
to `"br"`, the record's body is the decompression of the assembled chunk
payload, and otherwise the body is that payload as-is; every derived
accessor (`getContentString`, `getData`, `getDataUri`) is computed from the
record's body, hence observes the decompressed bytes. -/
theorem claimC6_decompressBeforeAccessors (br : List Nat → Option (List Nat))
    (utf8 : List Nat → List Nat) (raw : List Nat) (p : Nat) (insc : ParsedInscription2)
    (h : extractInscriptionData2 br raw p = some insc) :
    insc.contentEncoding
        = (getKnownFieldValue insc.fields knownFields_content_encoding).map
            uint8ArrayToSingleByteChars ∧
    ∃ combined, assembledBody raw p = some combined ∧
      (insc.contentEncoding = some (strBytes "br") → br combined = some insc.body) ∧
      (insc.contentEncoding ≠ some (strBytes "br") → insc.body = combined) ∧
      getContentString2 utf8 insc = utf8 insc.body ∧
      getData2 insc = encodeToBase64 insc.body ∧
      getDataUri2 insc
        = strBytes "data:" ++ insc.contentType ++ strBytes ";base64," ++ encodeToBase64 insc.body := by
  obtain ⟨flds, p1, chunks, p2, ctf, hf, hb, hfind, hct, hfl, hce, hbody⟩ :=
    extractInscriptionData2_some h
  constructor
  · rw [hfl, hce]
  · refine ⟨combineChunks chunks, ?_, ?_, ?_, rfl, rfl, rfl⟩
    · unfold assembledBody
      simp only [hf, hb]
    · intro hbr
      rcases hbody with ⟨_, h2⟩ | ⟨hne, _⟩
      · exact h2
      · exact absurd hbr hne
    · intro hne
      rcases hbody with ⟨hbr, _⟩ | ⟨_, h2⟩
      · exact absurd hbr hne
      · exact h2

/-- Claim C6 witness: the `rawBr` envelope declares `content_encoding "br"`;
under the stand-in decompressor `brDup` the record's body is the
decompressed payload. -/
theorem claimC6_witness :
    inscBr.contentEncoding
        = (getKnownFieldValue inscBr.fields knownFields_content_encoding).map
            uint8ArrayToSingleByteChars ∧
    ∃ combined, assembledBody rawBr 6 = some combined ∧
      (inscBr.contentEncoding = some (strBytes "br") → brDup combined = some inscBr.body) ∧
      (inscBr.contentEncoding ≠ some (strBytes "br") → inscBr.body = combined) ∧
      getContentString2 utf8Id inscBr = utf8Id inscBr.body ∧
      getData2 inscBr = encodeToBase64 inscBr.body ∧
      getDataUri2 inscBr
        = strBytes "data:" ++ inscBr.contentType ++ strBytes ";base64,"
            ++ encodeToBase64 inscBr.body :=
  claimC6_decompressBeforeAccessors brDup utf8Id rawBr 6 inscBr (by decide)

/-- Claim C7: the body of a returned inscription (first variant) is the
concatenation, in read order, of the pushdata chunks collected after the
field section until `OP_ENDIF` or the buffer end; its length is the sum of
the chunk lengths; zero chunks give the empty body. -/
theorem claimC7_bodyIsChunkConcatenation (raw : List Nat) (p : Nat) (insc : ParsedInscription1)
    (h : extractInscriptionData1 raw p = some insc) :
    ∃ flds p1 chunks p2,
      readFields raw p = Except.ok (flds, p1) ∧
      readBody raw (skipSeparator raw p1) = Except.ok (chunks, p2) ∧
      insc.body = chunks.flatten ∧
      insc.body.length = (chunks.map List.length).sum := by
  obtain ⟨flds, p1, chunks, p2, ctf, hf, hb, hfind, heq⟩ := extractInscriptionData1_some h
  refine ⟨flds, p1, chunks, p2, hf, hb, ?_, ?_⟩
  · rw [heq]
    exact combineChunks_eq_flatten chunks
  · rw [heq]
    exact combineChunks_length chunks

/-- Claim C7 witness: the `rawTwoChunks` envelope splits `"hi"` over two
pushdata chunks, and the record's body is their concatenation. -/
theorem claimC7_witness :
    ∃ flds p1 chunks p2,
      readFields rawTwoChunks 6 = Except.ok (flds, p1) ∧
      readBody rawTwoChunks (skipSeparator rawTwoChunks p1) = Except.ok (chunks, p2) ∧
      inscTwoChunks.body = chunks.flatten ∧
      inscTwoChunks.body.length = (chunks.map List.length).sum :=
  claimC7_bodyIsChunkConcatenation rawTwoChunks 6 inscTwoChunks (by decide)

/-- Claim C8: for every returned inscription, `getData()` is the base64
encoding of the (possibly decompressed) body bytes, and `getDataUri()` is
exactly `"data:"`, the decoded content type, `";base64,"`, and that same
base64 string. -/
theorem claimC8_dataUriFormat (br : List Nat → Option (List Nat))
    (tx : List (Option (List (List Nat)))) (insc : ParsedInscription2)
    (_hmem : insc ∈ parseInscriptions2 br tx) :
    getData2 insc = encodeToBase64 insc.body ∧
    getDataUri2 insc
      = strBytes "data:" ++ insc.contentType ++ strBytes ";base64," ++ getData2 insc :=
  ⟨rfl, rfl⟩

/-- Claim C8 witness: the `"hi"` record's accessors have the data-URI shape. -/
theorem claimC8_witness :
    getData2 inscA = encodeToBase64 inscA.body ∧
    getDataUri2 inscA
      = strBytes "data:" ++ inscA.contentType ++ strBytes ";base64," ++ getData2 inscA :=
  claimC8_dataUriFormat brId txA inscA (by decide)

/-- Claim C9: on a witness whose scanned envelopes carry no content_encoding
field, the two parser variants agree: they return the same number of
inscriptions, and corresponding records agree on content type, field list,
`getData()` and `getDataUri()`. -/
theorem claimC9_variantsAgree (br : List Nat → Option (List Nat))
    (witness : List (List Nat))
    (henc : ∀ p ∈ markPositions (hexStringToUint8Array witness.flatten),
      ∀ flds q, readFields (hexStringToUint8Array witness.flatten) p = Except.ok (flds, q) →
        getKnownFieldValue flds knownFields_content_encoding = none) :
    (parseInscriptionsWithinWitness1 witness).map (List.map toObs1)
      = (parseInscriptionsWithinWitness2 br witness).map (List.map toObs2) := by
  have h := parseLoop_obs_eq br (hexStringToUint8Array witness.flatten)
    ((hexStringToUint8Array witness.flatten).length + 1) 0 henc
  unfold parseInscriptionsWithinWitness1 parseInscriptionsWithinWitness2 parseLoop1 parseLoop2
  have hlen : (parseLoop1F ((hexStringToUint8Array witness.flatten).length + 1)
        (hexStringToUint8Array witness.flatten) 0).length
      = (parseLoop2F br ((hexStringToUint8Array witness.flatten).length + 1)
        (hexStringToUint8Array witness.flatten) 0).length := by
    have h2 := congrArg List.length h
    simpa using h2
  rw [hlen]
  by_cases h0 : 0 < (parseLoop2F br ((hexStringToUint8Array witness.flatten).length + 1)
      (hexStringToUint8Array witness.flatten) 0).length
  · simp only [if_pos h0, Option.map_some']
    exact congrArg some h
  · simp only [if_neg h0, Option.map_none']

/-- Claim C9 witness: on the `"hi"` witness both variants produce one record
with the same observations. -/
theorem claimC9_witness :
    (parseInscriptionsWithinWitness1 witnessA).map (List.map toObs1)
      = (parseInscriptionsWithinWitness2 brId witnessA).map (List.map toObs2) :=
  claimC9_variantsAgree brId witnessA (by
    intro p hp flds q h
    rw [show markPositions (hexStringToUint8Array witnessA.flatten) = [6] from by decide] at hp
    simp only [List.mem_singleton] at hp
    subst hp
    rw [show readFields (hexStringToUint8Array witnessA.flatten) 6
        = Except.ok ([⟨[1], strBytes "text/plain"⟩], 19) from by decide] at h
    simp only [Except.ok.injEq, Prod.mk.injEq] at h
    rw [← h.1]
    decide)

/-- Claim C10: a field is recognized as the content type only when its tag is
the single byte 1: a record's fields always contain such a field and are the
verbatim extracted field list (multi-byte tags included), and an envelope
none of whose tags is exactly `[1]` is dropped even if a multi-byte tag
mentions 1. -/
theorem claimC10_singleByteTagOnly (raw : List Nat) (p : Nat) :
    (∀ insc, extractInscriptionData1 raw p = some insc →
      (∃ f ∈ insc.fields, f.tag = [knownFields_content_type]) ∧
      ∀ flds q, readFields raw p = Except.ok (flds, q) → insc.fields = flds) ∧
    (∀ flds q, readFields raw p = Except.ok (flds, q) →
      (∀ f ∈ flds, f.tag ≠ [knownFields_content_type]) →
      extractInscriptionData1 raw p = none) := by
  constructor
  · intro insc h
    obtain ⟨flds, p1, chunks, p2, ctf, hf, hb, hfind, heq⟩ := extractInscriptionData1_some h
    constructor
    · refine ⟨ctf, ?_, ?_⟩
      · rw [heq]
        exact List.mem_of_find?_eq_some hfind
      · exact (hasSingleByteTag_iff knownFields_content_type ctf).mp (List.find?_some hfind)
    · intro flds2 q2 hf2
      rw [hf] at hf2
      simp only [Except.ok.injEq, Prod.mk.injEq] at hf2
      rw [heq, ← hf2.1]
  · intro flds q hf hno
    have hfind : flds.find? (hasSingleByteTag knownFields_content_type) = none := by
      rw [List.find?_eq_none]
      intro f hf2 hcontra
      exact hno f hf2 ((hasSingleByteTag_iff knownFields_content_type f).mp hcontra)
    unfold extractInscriptionData1 extractInscriptionData1E
    cases hb : readBody raw (skipSeparator raw q) with
    | error e => simp [hf, hb]
    | ok cp =>
      obtain ⟨chunks, p2⟩ := cp
      simp [hf, hb, hfind]

/-- Claim C10 witness: the envelope whose only type-like field has the
two-byte tag `[1, 0]` is dropped for lacking a content type. -/
theorem claimC10_witness : extractInscriptionData1 rawMultiByteTag 6 = none :=
  (claimC10_singleByteTagOnly rawMultiByteTag 6).2 [⟨[1, 0], [42]⟩] 11 (by decide) (by decide)
